import Mathlib

/-!
Verification of the DraftKings prop-scraper core (`src/app.py`).

The Python module is shallowly embedded below.  Pure string processing
(`convert_bet_line`), row parsing (`parse_prop_row`), aggregation with
duplicate suppression (`scrape_player_props`) and the query helpers are
translated as executable Lean functions over `List Char` / `String`.
The module-level cache (`cached_props_data`, `cache_timestamp`) is made
explicit as a `CacheState` value threaded through the cache operations;
wall-clock time and the network result of a scrape are parameters.
-/

set_option autoImplicit false

namespace DK

/-! ## Characters, trimming and the line normalizer (`convert_bet_line`) -/

/-- `List Char` version of Python `str.strip()` on the left. -/
def trimLeft (l : List Char) : List Char :=
  l.dropWhile Char.isWhitespace

/-- `List Char` version of Python `str.strip()` on the right. -/
def trimRight (l : List Char) : List Char :=
  (l.reverse.dropWhile Char.isWhitespace).reverse

/-- `List Char` version of Python `str.strip()`. -/
def trimCore (l : List Char) : List Char :=
  trimRight (trimLeft l)

/-- Python `str.strip()` lifted back to `String`. -/
def pstrip (s : String) : String :=
  String.mk (trimCore s.data)

/-- Value of a digit string, as computed by Python `int(...)`. -/
def natOfDigits (ds : List Char) : Nat :=
  ds.foldl (fun a c => 10 * a + (c.toNat - '0'.toNat)) 0

/-- The anchored regular-expression test `re.match(r'^(\d+)\+$', ...)` of
`convert_bet_line`: succeeds exactly on a nonempty run of digits followed
by a final `+`, returning the integer value of the digits. -/
def matchNumPlus (l : List Char) : Option Nat :=
  if l.getLast? = some '+' then
    let ds := l.dropLast
    if ds.isEmpty then none
    else if ds.all Char.isDigit then some (natOfDigits ds)
    else none
  else none

/-- Python rendering of `number - 0.5` for a natural `number`, as produced
by the f-string in `convert_bet_line` (exact decimal arithmetic). -/
def halfFmt (n : Nat) : List Char :=
  if n = 0 then "-0.5".data else (Nat.repr (n - 1)).data ++ ".5".data

/-- Core of `convert_bet_line` on character lists: empty input is returned
unchanged, a trimmed `digits+` input becomes `Over (n - 0.5)`, anything
else is returned unchanged. -/
def convertCore (l : List Char) : List Char :=
  if l = [] then l
  else
    match matchNumPlus (trimCore l) with
    | some n => "Over ".data ++ halfFmt n
    | none => l

/-- `convert_bet_line` from `src/app.py`. -/
def convert_bet_line (s : String) : String :=
  String.mk (convertCore s.data)

/-! ## The prop record and row parsing (`parse_prop_row`) -/

/-- One scraped prop, mirroring the dict built by `parse_prop_row`. -/
structure PropRecord where
  event : String
  event_date : String
  market : String
  betslip_line : String
  converted_betslip_line : String
  odds : String
  draftkings_url : String
  sport : String
  scraped_date_range : String
  scraped_timestamp : String
deriving DecidableEq, Repr

/-- An `<a>` tag inside the odds cell: its text and optional `href`. -/
structure LinkTag where
  text : String
  href : Option String
deriving DecidableEq, Repr

/-- One `<td>` cell: its text and the result of `find('a')`. -/
structure Cell where
  text : String
  link : Option LinkTag
deriving DecidableEq, Repr

/-- One `<tr>` table row, a list of cells. -/
structure Row where
  cells : List Cell
deriving DecidableEq, Repr

/-- `parse_prop_row` from `src/app.py`: rows with fewer than 5 cells are
rejected (`None`); otherwise the first four cells give the text fields,
and the fifth cell gives odds and link target, preferring an embedded
`<a>` tag. -/
def parse_prop_row (row : Row) (sport_name date_range ts : String) :
    Option PropRecord :=
  match row.cells with
  | c0 :: c1 :: c2 :: c3 :: c4 :: _ =>
    let betslip_line := pstrip c3.text
    let oddsUrl : String × String :=
      match c4.link with
      | some a => (pstrip a.text, a.href.getD "")
      | none => (pstrip c4.text, "")
    some
      { event := pstrip c0.text
        event_date := pstrip c1.text
        market := pstrip c2.text
        betslip_line := betslip_line
        converted_betslip_line := convert_bet_line betslip_line
        odds := oddsUrl.1
        draftkings_url := oddsUrl.2
        sport := sport_name
        scraped_date_range := date_range
        scraped_timestamp := ts }
  | _ => none

/-! ## The aggregator (`scrape_player_props`) -/

/-- The 5-field dedup key used by `scrape_player_props` (`sport` is not
part of it). -/
def dkKey (r : PropRecord) : String × String × String × String × String :=
  (r.event, r.event_date, r.market, r.betslip_line, r.scraped_date_range)

/-- The duplicate test of `scrape_player_props`, field by field. -/
def isDupOf (e r : PropRecord) : Bool :=
  e.event == r.event && e.event_date == r.event_date &&
  e.market == r.market && e.betslip_line == r.betslip_line &&
  e.scraped_date_range == r.scraped_date_range

/-- Append a parsed record to the accumulator unless a record with the
same dedup key is already present. -/
def insertDedup (acc : List PropRecord) (r : PropRecord) : List PropRecord :=
  if acc.any (fun e => isDupOf e r) then acc else acc ++ [r]

/-- The inner row loop of `scrape_player_props` over the rows of one
fetched page, threading the run-wide accumulator. -/
def scrapeRows (sport date_range ts : String) (rows : List Row)
    (acc : List PropRecord) : List PropRecord :=
  rows.foldl
    (fun a row =>
      match parse_prop_row row sport date_range ts with
      | some r => insertDedup a r
      | none => a)
    acc

/-- One (sport, date-range) fetch result: `rows = none` models a failed
fetch or a page without the props table, which contributes nothing. -/
structure TargetPage where
  sport_display_name : String
  date_range : String
  rows : Option (List Row)
deriving DecidableEq, Repr

/-- One iteration of the target loop of `scrape_player_props`: a failed
fetch or a missing table (`rows = none`) leaves the accumulator
untouched. -/
def scrapePage (ts : String) (a : List PropRecord) (p : TargetPage) :
    List PropRecord :=
  match p.rows with
  | some rs => scrapeRows p.sport_display_name p.date_range ts rs a
  | none => a

/-- `scrape_player_props` from `src/app.py`, with the network modelled as
the list of fetched pages: the accumulator and its dedup check are shared
across the entire run. -/
def scrape_player_props (pages : List TargetPage) (ts : String) :
    List PropRecord :=
  pages.foldl (scrapePage ts) []

/-! ## The cache (`is_cache_expired`, `get_cached_or_fresh_data`,
`refresh_props_cache`) -/

/-- `CACHE_DURATION_MINUTES` from `src/app.py`. -/
def CACHE_DURATION_MINUTES : Nat := 30

/-- The module-level mutable state `cached_props_data` / `cache_timestamp`,
with time measured in minutes. -/
structure CacheState where
  cached_props_data : List PropRecord
  cache_timestamp : Option Nat
deriving DecidableEq, Repr

/-- `is_cache_expired` from `src/app.py`: no timestamp means expired,
otherwise the cache expires strictly after `CACHE_DURATION_MINUTES`. -/
def is_cache_expired (now : Nat) (s : CacheState) : Bool :=
  match s.cache_timestamp with
  | none => true
  | some t => decide (CACHE_DURATION_MINUTES < now - t)

/-- Result of one cache access: the returned collection, the new cache
state, and how many times `scrape_player_props` was invoked. -/
structure GetResult where
  result : List PropRecord
  state : CacheState
  scrapes : Nat
deriving DecidableEq, Repr

/-- `get_cached_or_fresh_data` from `src/app.py`: the cached collection is
served only when it is nonempty (Python truthiness of the list) and not
expired; otherwise one fresh scrape (whose outcome is the parameter
`fresh`) is stored with the current timestamp and returned. -/
def get_cached_or_fresh_data (now : Nat) (fresh : List PropRecord)
    (s : CacheState) : GetResult :=
  if s.cached_props_data ≠ [] ∧ is_cache_expired now s = false then
    ⟨s.cached_props_data, s, 0⟩
  else
    ⟨fresh, ⟨fresh, some now⟩, 1⟩

/-- `refresh_props_cache` from `src/app.py`: resets the state to the empty
collection with no timestamp, then calls `get_cached_or_fresh_data`. -/
def refresh_props_cache (now : Nat) (fresh : List PropRecord)
    (_discarded : CacheState) : GetResult :=
  get_cached_or_fresh_data now fresh ⟨[], none⟩

/-! ## Query layer (`get_top_props_by_sport`, `get_converted_lines`) -/

/-- One step of the grouping loop of `get_top_props_by_sport`: append the
record to its sport's group, creating the group at the end on first
sight (Python dict insertion order). -/
def addToGroup : List (String × List PropRecord) → PropRecord →
    List (String × List PropRecord)
  | [], p => [(p.sport, [p])]
  | (s, ps) :: rest, p =>
    if s = p.sport then (s, ps ++ [p]) :: rest
    else (s, ps) :: addToGroup rest p

/-- First-match lookup in a grouping, empty when the sport is absent. -/
def lookupGroup : List (String × List PropRecord) → String → List PropRecord
  | [], _ => []
  | (s, ps) :: rest, t => if s = t then ps else lookupGroup rest t

/-- `get_top_props_by_sport` from `src/app.py`: group by sport in
first-seen order, then truncate every group to the first `limit`
records. -/
def get_top_props_by_sport (props : List PropRecord) (limit : Nat) :
    List (String × List PropRecord) :=
  (props.foldl addToGroup []).map (fun e => (e.1, e.2.take limit))

/-- Percentage with one decimal place, the exact-arithmetic reading of the
f-string `f"{c/t*100:.1f}%"` (round half to even on `1000 * c / t`). -/
def fmtPct (c t : Nat) : String :=
  let n := 1000 * c
  let q := n / t
  let r := n % t
  let tenths :=
    if 2 * r < t then q
    else if t < 2 * r then q + 1
    else if q % 2 = 0 then q else q + 1
  String.mk ((Nat.repr (tenths / 10)).data ++
    '.' :: (Nat.repr (tenths % 10)).data ++ ['%'])

/-- Response body of the `/converted-lines` route. -/
structure ConvertedLinesResp where
  converted_props : List PropRecord
  count : Nat
  total_props : Nat
  conversion_rate : String
deriving DecidableEq, Repr

/-- The computation of `get_converted_lines` from `src/app.py`, applied to
the collection returned by the cache: records whose line was changed by
the normalizer, plus the conversion rate guarded against an empty
collection. -/
def get_converted_lines (all_props : List PropRecord) : ConvertedLinesResp :=
  let converted_props :=
    all_props.filter (fun p => p.betslip_line ≠ p.converted_betslip_line)
  { converted_props := converted_props
    count := converted_props.length
    total_props := all_props.length
    conversion_rate :=
      if all_props = [] then "0%"
      else fmtPct converted_props.length all_props.length }

/-! ## Concurrency model for `get_cached_or_fresh_data`

Two request threads run `get_cached_or_fresh_data` concurrently.  The
Python function performs its check of the shared globals, then the long
blocking scrape, then the write-back, so each thread is modelled with
three program points; the shared cache is read at `start` and written when
the scrape returns. -/

/-- Program counter of one request thread inside
`get_cached_or_fresh_data`. -/
inductive TPC where
  | start
  | scraping
  | done
deriving DecidableEq, Repr

/-- Shared cache plus the two thread program counters. -/
structure ConcState where
  cache : CacheState
  pc1 : TPC
  pc2 : TPC
deriving DecidableEq, Repr

/-- One atomic step of a thread: the freshness check (lines 38-42 of
`src/app.py`) and, separately, the return of the scrape with the
write-back of the globals (lines 43-45). -/
def threadStep (now : Nat) (fresh : List PropRecord) (pc : TPC)
    (c : CacheState) : TPC × CacheState :=
  match pc with
  | TPC.start =>
    if c.cached_props_data ≠ [] ∧ is_cache_expired now c = false then
      (TPC.done, c)
    else
      (TPC.scraping, c)
  | TPC.scraping => (TPC.done, ⟨fresh, some now⟩)
  | TPC.done => (TPC.done, c)

/-- Run one scheduled step: `false` steps thread 1, `true` steps
thread 2. -/
def schedStep (now : Nat) (f1 f2 : List PropRecord) (st : ConcState)
    (i : Bool) : ConcState :=
  if i then
    let r := threadStep now f2 st.pc2 st.cache
    ⟨r.2, st.pc1, r.1⟩
  else
    let r := threadStep now f1 st.pc1 st.cache
    ⟨r.2, r.1, st.pc2⟩

/-- Run a whole schedule of interleaved steps. -/
def execSched (now : Nat) (f1 f2 : List PropRecord) (sched : List Bool)
    (st : ConcState) : ConcState :=
  sched.foldl (schedStep now f1 f2) st

/-- Both threads have a scrape of the remote source in flight. -/
def bothInFlight (st : ConcState) : Bool :=
  st.pc1 == TPC.scraping && st.pc2 == TPC.scraping

/-! ## Lemmas about the line normalizer -/

theorem string_mk_data (s : String) : String.mk s.data = s := by
  cases s
  rfl

theorem matchNumPlus_concat (ds : List Char) (h1 : ds ≠ [])
    (h2 : ds.all Char.isDigit = true) :
    matchNumPlus (ds ++ ['+']) = some (natOfDigits ds) := by
  unfold matchNumPlus
  rw [List.getLast?_concat]
  simp [List.dropLast_concat, h2, List.isEmpty_iff, h1]

theorem matchNumPlus_eq_some (l : List Char) (n : Nat)
    (h : matchNumPlus l = some n) :
    ∃ ds, ds ≠ [] ∧ ds.all Char.isDigit = true ∧ l = ds ++ ['+'] ∧
      natOfDigits ds = n := by
  rcases List.eq_nil_or_concat l with h0 | ⟨ds, c, hdc⟩
  · subst h0
    simp [matchNumPlus] at h
  · rw [List.concat_eq_append] at hdc
    subst hdc
    unfold matchNumPlus at h
    rw [List.getLast?_concat] at h
    by_cases hc : c = '+'
    · subst hc
      rw [if_pos rfl, List.dropLast_concat] at h
      by_cases he : ds.isEmpty
      · rw [if_pos he] at h
        exact absurd h (by simp)
      · rw [if_neg he] at h
        by_cases hd : ds.all Char.isDigit
        · rw [if_pos hd] at h
          refine ⟨ds, ?_, hd, rfl, Option.some.inj h⟩
          intro hnil
          exact he (by simp [hnil])
        · rw [if_neg hd] at h
          exact absurd h (by simp)
    · rw [if_neg (by simp [hc])] at h
      exact absurd h (by simp)

/-- C2: a whitespace-trimmed input consisting of one or more digits
followed by a final `+` is rewritten by `convert_bet_line` into
`Over (n - 0.5)` for the parsed value `n` of the digits, rendered with
one decimal place; every other string is returned unchanged. -/
theorem convert_bet_line_spec (s : String) :
    (∀ ds : List Char, ds ≠ [] → ds.all Char.isDigit = true →
        trimCore s.data = ds ++ ['+'] →
        convert_bet_line s =
          String.mk ("Over ".data ++ halfFmt (natOfDigits ds))) ∧
    ((∀ ds : List Char, ds ≠ [] → ds.all Char.isDigit = true →
        trimCore s.data ≠ ds ++ ['+']) →
      convert_bet_line s = s) := by
  constructor
  · intro ds h1 h2 h3
    have hne : s.data ≠ [] := by
      intro h0
      rw [h0] at h3
      simp [trimCore, trimLeft, trimRight] at h3
    unfold convert_bet_line convertCore
    rw [if_neg hne, h3, matchNumPlus_concat ds h1 h2]
  · intro h
    unfold convert_bet_line convertCore
    by_cases hne : s.data = []
    · rw [if_pos hne]
    · rw [if_neg hne]
      split
      · rename_i n heq
        exfalso
        obtain ⟨ds, hd1, hd2, hd3, _⟩ := matchNumPlus_eq_some _ _ heq
        exact h ds hd1 hd2 hd3
      · exact string_mk_data s

/-- Witness for C2 at the spec's concrete examples. -/
theorem convert_bet_line_spec_witness :
    convert_bet_line "1+" = "Over 0.5" ∧
    convert_bet_line "12+" = "Over 11.5" ∧
    convert_bet_line "Over 2.5" = "Over 2.5" ∧
    convert_bet_line "" = "" := by
  refine ⟨?_, ?_, ?_, ?_⟩
  · have h := (convert_bet_line_spec "1+").1 ['1'] (by decide) (by decide)
      (by decide)
    rw [h]
    decide
  · have h := (convert_bet_line_spec "12+").1 ['1', '2'] (by decide)
      (by decide) (by decide)
    rw [h]
    decide
  · refine (convert_bet_line_spec "Over 2.5").2 ?_
    intro ds _ _ heq
    have h5 := congrArg List.getLast? heq
    rw [List.getLast?_concat] at h5
    exact absurd h5 (by decide)
  · refine (convert_bet_line_spec "").2 ?_
    intro ds _ _ heq
    rw [show trimCore "".data = [] from rfl] at heq
    exact absurd heq.symm (by simp)

theorem trimCore_over_fixed (n : Nat) (mid : List Char)
    (hm : "Over ".data ++ halfFmt n = mid ++ ['5']) :
    trimCore ("Over ".data ++ halfFmt n) = "Over ".data ++ halfFmt n := by
  have hcons : "Over ".data ++ halfFmt n = 'O' :: ("ver ".data ++ halfFmt n) :=
    rfl
  unfold trimCore trimLeft trimRight
  rw [hcons, List.dropWhile_cons]
  have hO : Char.isWhitespace 'O' = false := by decide
  rw [hO]
  simp only [Bool.false_eq_true, if_false]
  rw [← hcons, hm, List.reverse_append]
  simp only [List.reverse_cons, List.reverse_nil, List.nil_append,
    List.singleton_append, List.dropWhile_cons]
  have h5 : Char.isWhitespace '5' = false := by decide
  rw [h5]
  simp

theorem halfFmt_concat (n : Nat) :
    ∃ mid, "Over ".data ++ halfFmt n = mid ++ ['5'] := by
  by_cases h0 : n = 0
  · subst h0
    exact ⟨"Over -0.".data, by decide⟩
  · refine ⟨"Over ".data ++ (Nat.repr (n - 1)).data ++ ['.'], ?_⟩
    unfold halfFmt
    rw [if_neg h0]
    simp

theorem convertCore_fixed_output (n : Nat) :
    convertCore ("Over ".data ++ halfFmt n) = "Over ".data ++ halfFmt n := by
  obtain ⟨mid, hm⟩ := halfFmt_concat n
  have hne : "Over ".data ++ halfFmt n ≠ [] := by
    rw [hm]
    simp
  unfold convertCore
  rw [if_neg hne, trimCore_over_fixed n mid hm]
  have hmatch : matchNumPlus ("Over ".data ++ halfFmt n) = none := by
    rw [hm]
    unfold matchNumPlus
    rw [List.getLast?_concat]
    simp
  rw [hmatch]

theorem convertCore_idem (l : List Char) :
    convertCore (convertCore l) = convertCore l := by
  by_cases h0 : l = []
  · subst h0
    simp [convertCore]
  · cases hm : matchNumPlus (trimCore l) with
    | none =>
      have hself : convertCore l = l := by
        unfold convertCore
        rw [if_neg h0, hm]
      rw [hself, hself]
    | some n =>
      have hout : convertCore l = "Over ".data ++ halfFmt n := by
        unfold convertCore
        rw [if_neg h0, hm]
      rw [hout]
      exact convertCore_fixed_output n

/-- C9: the line normalizer is idempotent — a converted output of the
form `Over x.5` never itself matches the `digits+` pattern, so a second
pass through `convert_bet_line` changes nothing. -/
theorem convert_bet_line_idem (s : String) :
    convert_bet_line (convert_bet_line s) = convert_bet_line s := by
  unfold convert_bet_line
  exact congrArg String.mk (convertCore_idem s.data)

/-! ## Cache theorems -/

/-- A concrete record used to instantiate witnesses. -/
def sampleRec : PropRecord :=
  ⟨"LAD @ NYY", "Oct 12", "Hits", "2+", "Over 1.5", "-110", "", "MLB",
    "today", "ts"⟩

/-- C4: `refresh_props_cache` discards the held snapshot and, from any
starting state, performs exactly one aggregator run, installing its
result with a new timestamp. -/
theorem refresh_props_cache_one_run (now : Nat) (fresh : List PropRecord)
    (s : CacheState) :
    refresh_props_cache now fresh s = ⟨fresh, ⟨fresh, some now⟩, 1⟩ := by
  simp [refresh_props_cache, get_cached_or_fresh_data]

theorem getResult_inv_aux (now : Nat) (fresh : List PropRecord)
    (s : CacheState) :
    ((get_cached_or_fresh_data now fresh s).state.cache_timestamp).isSome
      = true ∧
    (get_cached_or_fresh_data now fresh s).result =
      (get_cached_or_fresh_data now fresh s).state.cached_props_data := by
  unfold get_cached_or_fresh_data
  split
  · rename_i hcond
    refine ⟨?_, rfl⟩
    cases hts : s.cache_timestamp with
    | none =>
      exfalso
      have h2 := hcond.2
      rw [is_cache_expired, hts] at h2
      exact Bool.true_eq_false.mp h2
    | some t => simp [hts]
  · exact ⟨rfl, rfl⟩

/-- C10: after any call to `get_cached_or_fresh_data` the cache timestamp
is set and the returned collection is exactly the collection held in the
cache. -/
theorem get_cached_or_fresh_data_inv (now : Nat) (fresh : List PropRecord)
    (s : CacheState) :
    ((get_cached_or_fresh_data now fresh s).state.cache_timestamp).isSome
      = true ∧
    (get_cached_or_fresh_data now fresh s).result =
      (get_cached_or_fresh_data now fresh s).state.cached_props_data :=
  getResult_inv_aux now fresh s

/-- C1 counterexample: when a refresh stores an empty collection, the
snapshot is recorded with a fresh timestamp, yet a second `get` inside
the TTL window runs the aggregator again — two scrapes in total, because
`get_cached_or_fresh_data` treats an empty cached list as absent. -/
theorem get_cached_empty_refetch_cex :
    (get_cached_or_fresh_data 0 [] ⟨[], none⟩).state.cache_timestamp
      = some 0 ∧
    is_cache_expired 1 (get_cached_or_fresh_data 0 [] ⟨[], none⟩).state
      = false ∧
    (get_cached_or_fresh_data 0 [] ⟨[], none⟩).scrapes +
      (get_cached_or_fresh_data 1 []
        (get_cached_or_fresh_data 0 [] ⟨[], none⟩).state).scrapes = 2 := by
  decide

/-- C1 amended: a fresh snapshot is served without a scrape only when the
held collection is nonempty; under that proviso — in particular whenever
the first call's refresh result is nonempty — two `get` calls inside the
TTL window run the aggregator at most once, and the first call always
leaves the timestamp set. -/
theorem get_cached_twice_at_most_one_run (now1 now2 : Nat)
    (fresh1 fresh2 : List PropRecord) (s : CacheState)
    (h1 : fresh1 ≠ []) :
    (s.cached_props_data ≠ [] → is_cache_expired now1 s = false →
      get_cached_or_fresh_data now1 fresh1 s = ⟨s.cached_props_data, s, 0⟩) ∧
    ((get_cached_or_fresh_data now1 fresh1 s).state.cache_timestamp).isSome
      = true ∧
    (is_cache_expired now2 (get_cached_or_fresh_data now1 fresh1 s).state
        = false →
      (get_cached_or_fresh_data now1 fresh1 s).scrapes +
        (get_cached_or_fresh_data now2 fresh2
          (get_cached_or_fresh_data now1 fresh1 s).state).scrapes ≤ 1) := by
  refine ⟨?_, (getResult_inv_aux now1 fresh1 s).1, ?_⟩
  · intro hc he
    unfold get_cached_or_fresh_data
    rw [if_pos ⟨hc, he⟩]
  · intro hexp
    unfold get_cached_or_fresh_data
    unfold get_cached_or_fresh_data at hexp
    by_cases hcond : s.cached_props_data ≠ [] ∧ is_cache_expired now1 s = false
    · rw [if_pos hcond]
      rw [if_pos hcond] at hexp
      rw [if_pos ⟨hcond.1, hexp⟩]
      simp
    · rw [if_neg hcond]
      rw [if_neg hcond] at hexp
      rw [if_pos ⟨h1, hexp⟩]
      exact Nat.le_refl 1

/-- Witness for the amended C1 at concrete inputs: a first access from the
empty start state followed by a second access five minutes later scrapes
exactly once in total. -/
theorem get_cached_twice_at_most_one_run_witness :
    (get_cached_or_fresh_data 0 [sampleRec] ⟨[], none⟩).scrapes +
      (get_cached_or_fresh_data 5 []
        (get_cached_or_fresh_data 0 [sampleRec] ⟨[], none⟩).state).scrapes
      ≤ 1 :=
  (get_cached_twice_at_most_one_run 0 5 [sampleRec] [] ⟨[], none⟩
    (by decide)).2.2 (by decide)

/-! ## Concurrency theorems -/

/-- C8 counterexample: with no lock in `src/app.py`, two request threads
that both observe the stale cache before either scrape finishes each
launch their own aggregator run; the schedule stepping thread 1 then
thread 2 reaches a state with two scrapes in flight. -/
theorem concurrent_get_single_flight_cex :
    ¬ (∀ (now : Nat) (f1 f2 : List PropRecord) (sched : List Bool)
        (st : ConcState),
        st.pc1 = TPC.start → st.pc2 = TPC.start →
        is_cache_expired now st.cache = true →
        bothInFlight (execSched now f1 f2 sched st) = false) := by
  intro h
  exact absurd
    (h 0 [] [] [false, true] ⟨⟨[], none⟩, TPC.start, TPC.start⟩ rfl rfl
      (by decide))
    (by decide)

/-- C8 amended: concurrent `get` callers that find the snapshot stale are
not serialized — each launches an independent aggregator run, and two
runs can be in flight simultaneously. -/
theorem concurrent_get_two_flights :
    bothInFlight (execSched 0 [] [] [false, true]
      ⟨⟨[], none⟩, TPC.start, TPC.start⟩) = true := by
  decide

/-! ## Dedup lemmas for the aggregator -/

theorem isDupOf_iff (e r : PropRecord) :
    isDupOf e r = true ↔ dkKey e = dkKey r := by
  simp [isDupOf, dkKey, Prod.ext_iff, and_assoc]

theorem pairwise_insertDedup (acc : List PropRecord) (r : PropRecord)
    (h : acc.Pairwise (fun a b => dkKey a ≠ dkKey b)) :
    (insertDedup acc r).Pairwise (fun a b => dkKey a ≠ dkKey b) := by
  unfold insertDedup
  split
  · exact h
  · rename_i hany
    rw [List.pairwise_append]
    refine ⟨h, List.pairwise_singleton _ _, ?_⟩
    intro a ha b hb
    rw [List.mem_singleton] at hb
    subst hb
    rw [List.any_eq_true] at hany
    push_neg at hany
    intro hk
    exact hany a ha ((isDupOf_iff a b).mpr hk)

theorem keyIn_insertDedup_mono (acc : List PropRecord) (r : PropRecord)
    (k : String × String × String × String × String)
    (h : ∃ e ∈ acc, dkKey e = k) :
    ∃ e ∈ insertDedup acc r, dkKey e = k := by
  obtain ⟨e, he, hk⟩ := h
  unfold insertDedup
  split
  · exact ⟨e, he, hk⟩
  · exact ⟨e, List.mem_append_left _ he, hk⟩

theorem keyIn_insertDedup_self (acc : List PropRecord) (r : PropRecord) :
    ∃ e ∈ insertDedup acc r, dkKey e = dkKey r := by
  unfold insertDedup
  split
  · rename_i hany
    rw [List.any_eq_true] at hany
    obtain ⟨e, he, hd⟩ := hany
    exact ⟨e, he, (isDupOf_iff e r).mp hd⟩
  · exact ⟨r, List.mem_append_right _ (by simp), rfl⟩

theorem scrapeRows_cons (sp dr ts : String) (row : Row) (rows : List Row)
    (acc : List PropRecord) :
    scrapeRows sp dr ts (row :: rows) acc =
      scrapeRows sp dr ts rows
        (match parse_prop_row row sp dr ts with
        | some r => insertDedup acc r
        | none => acc) :=
  rfl

theorem scrapeRows_pairwise (sp dr ts : String) (rows : List Row) :
    ∀ acc, acc.Pairwise (fun a b => dkKey a ≠ dkKey b) →
      (scrapeRows sp dr ts rows acc).Pairwise
        (fun a b => dkKey a ≠ dkKey b) := by
  induction rows with
  | nil => exact fun acc h => h
  | cons row rows ih =>
    intro acc h
    rw [scrapeRows_cons]
    cases hp : parse_prop_row row sp dr ts with
    | none =>
      simp only [hp]
      exact ih acc h
    | some r =>
      simp only [hp]
      exact ih _ (pairwise_insertDedup acc r h)

theorem scrapeRows_keyIn_mono (sp dr ts : String) (rows : List Row)
    (k : String × String × String × String × String) :
    ∀ acc, (∃ e ∈ acc, dkKey e = k) →
      ∃ e ∈ scrapeRows sp dr ts rows acc, dkKey e = k := by
  induction rows with
  | nil => exact fun acc h => h
  | cons row rows ih =>
    intro acc h
    rw [scrapeRows_cons]
    cases hp : parse_prop_row row sp dr ts with
    | none =>
      simp only [hp]
      exact ih acc h
    | some r =>
      simp only [hp]
      exact ih _ (keyIn_insertDedup_mono acc r k h)

theorem scrapeRows_keyIn_of_mem (sp dr ts : String) (rows : List Row)
    (row : Row) (r : PropRecord) (hrow : row ∈ rows)
    (hp : parse_prop_row row sp dr ts = some r) :
    ∀ acc, ∃ e ∈ scrapeRows sp dr ts rows acc, dkKey e = dkKey r := by
  induction rows with
  | nil => exact absurd hrow (List.not_mem_nil row)
  | cons x rows ih =>
    intro acc
    rw [scrapeRows_cons]
    rcases List.mem_cons.mp hrow with rfl | hmem
    · rw [hp]
      exact scrapeRows_keyIn_mono sp dr ts rows (dkKey r) _
        (keyIn_insertDedup_self acc r)
    · exact ih hmem _

theorem scrapeFold_cons (ts : String) (p : TargetPage)
    (pages : List TargetPage) (acc : List PropRecord) :
    (p :: pages).foldl (scrapePage ts) acc =
      pages.foldl (scrapePage ts) (scrapePage ts acc p) :=
  rfl

theorem scrapeFold_pairwise (ts : String) (pages : List TargetPage) :
    ∀ acc, acc.Pairwise (fun a b => dkKey a ≠ dkKey b) →
      (pages.foldl (scrapePage ts) acc).Pairwise
        (fun a b => dkKey a ≠ dkKey b) := by
  induction pages with
  | nil => exact fun acc h => h
  | cons p pages ih =>
    intro acc h
    rw [scrapeFold_cons]
    apply ih
    unfold scrapePage
    cases hr : p.rows with
    | none => exact h
    | some rs => exact scrapeRows_pairwise _ _ _ rs acc h

theorem scrapeFold_keyIn_mono (ts : String) (pages : List TargetPage)
    (k : String × String × String × String × String) :
    ∀ acc, (∃ e ∈ acc, dkKey e = k) →
      ∃ e ∈ pages.foldl (scrapePage ts) acc, dkKey e = k := by
  induction pages with
  | nil => exact fun acc h => h
  | cons p pages ih =>
    intro acc h
    rw [scrapeFold_cons]
    apply ih
    unfold scrapePage
    cases hr : p.rows with
    | none => exact h
    | some rs => exact scrapeRows_keyIn_mono _ _ _ rs k acc h

theorem scrapeFold_keyIn_of_mem (ts : String) (pages : List TargetPage)
    (p : TargetPage) (hp : p ∈ pages) (rs : List Row)
    (hrs : p.rows = some rs) (row : Row) (hrow : row ∈ rs)
    (r : PropRecord)
    (hparse : parse_prop_row row p.sport_display_name p.date_range ts
      = some r) :
    ∀ acc, ∃ e ∈ pages.foldl (scrapePage ts) acc, dkKey e = dkKey r := by
  induction pages with
  | nil => exact absurd hp (List.not_mem_nil p)
  | cons q pages ih =>
    intro acc
    rw [scrapeFold_cons]
    rcases List.mem_cons.mp hp with rfl | hmem
    · apply scrapeFold_keyIn_mono ts pages (dkKey r)
      unfold scrapePage
      rw [hrs]
      exact scrapeRows_keyIn_of_mem _ _ _ rs row r hrow hparse acc
    · exact ih hmem _

theorem countP_key_of_pairwise (l : List PropRecord)
    (k : String × String × String × String × String)
    (hp : l.Pairwise (fun a b => dkKey a ≠ dkKey b))
    (hk : ∃ e ∈ l, dkKey e = k) :
    l.countP (fun e => decide (dkKey e = k)) = 1 := by
  induction l with
  | nil => simp at hk
  | cons x xs ih =>
    rw [List.countP_cons]
    rcases List.pairwise_cons.mp hp with ⟨hx, hxs⟩
    by_cases hxk : dkKey x = k
    · have hzero : xs.countP (fun e => decide (dkKey e = k)) = 0 := by
        rw [List.countP_eq_zero]
        intro e he
        simp only [decide_eq_true_eq]
        intro hek
        exact hx e he (hxk.trans hek.symm)
      rw [hzero]
      simp [hxk]
    · rcases hk with ⟨e, he, hek⟩
      rcases List.mem_cons.mp he with rfl | hexs
      · exact absurd hek hxk
      · rw [ih hxs ⟨e, hexs, hek⟩]
        simp [hxk]

/-- C3: the aggregated collection never holds two records with the same
5-field dedup key (`sport` excluded), the dedup accumulator spans the
whole run across all targets, and any row that parses leaves exactly one
record with its key in the result. -/
theorem scrape_player_props_dedup (pages : List TargetPage) (ts : String) :
    (scrape_player_props pages ts).Pairwise
      (fun a b => dkKey a ≠ dkKey b) ∧
    (∀ p, p ∈ pages → ∀ rs, p.rows = some rs → ∀ row, row ∈ rs →
      ∀ r, parse_prop_row row p.sport_display_name p.date_range ts
        = some r →
      (scrape_player_props pages ts).countP
        (fun e => decide (dkKey e = dkKey r)) = 1) := by
  constructor
  · exact scrapeFold_pairwise ts pages [] List.Pairwise.nil
  · intro p hp rs hrs row hrow r hparse
    exact countP_key_of_pairwise _ _
      (scrapeFold_pairwise ts pages [] List.Pairwise.nil)
      (scrapeFold_keyIn_of_mem ts pages p hp rs hrs row hrow r hparse [])

/-- A concrete cell without an embedded link, for witnesses. -/
def cellW (t : String) : Cell :=
  ⟨t, none⟩

/-- A concrete well-formed table row, for witnesses. -/
def rowW : Row :=
  ⟨[cellW "LAD @ NYY", cellW "Oct 12", cellW "Hits", cellW "2+",
    cellW "-110"]⟩

/-- A concrete fetched page carrying the same row twice, for witnesses. -/
def pageW : TargetPage :=
  ⟨"MLB", "today", some [rowW, rowW]⟩

/-- Witness for C3: a page with the same row twice aggregates to exactly
one record with that dedup key. -/
theorem scrape_player_props_dedup_witness :
    (scrape_player_props [pageW] "ts").countP
      (fun e => decide (dkKey e = dkKey sampleRec)) = 1 :=
  (scrape_player_props_dedup [pageW] "ts").2 pageW (by simp)
    [rowW, rowW] rfl rowW (by simp) sampleRec (by decide)

/-! ## Row-parser theorems -/

/-- C7: a row with fewer than 5 cells yields the per-row failure signal
`none` and is skipped by the row loop without disturbing sibling rows; a
row with at least 5 cells yields the record taking `event`, `event_date`,
`market`, `betslip_line` from cells 0-3 and odds plus link target from
cell 4, preferring an embedded link and falling back to the bare cell
text with an empty link target. -/
theorem parse_prop_row_spec (row : Row) (sp dr ts : String) :
    (row.cells.length < 5 → parse_prop_row row sp dr ts = none) ∧
    (∀ c0 c1 c2 c3 c4 rest,
      row.cells = c0 :: c1 :: c2 :: c3 :: c4 :: rest →
      parse_prop_row row sp dr ts = some
        { event := pstrip c0.text
          event_date := pstrip c1.text
          market := pstrip c2.text
          betslip_line := pstrip c3.text
          converted_betslip_line := convert_bet_line (pstrip c3.text)
          odds :=
            match c4.link with
            | some a => pstrip a.text
            | none => pstrip c4.text
          draftkings_url :=
            match c4.link with
            | some a => a.href.getD ""
            | none => ""
          sport := sp
          scraped_date_range := dr
          scraped_timestamp := ts }) ∧
    (∀ rows1 rows2 acc, row.cells.length < 5 →
      scrapeRows sp dr ts (rows1 ++ row :: rows2) acc =
        scrapeRows sp dr ts (rows1 ++ rows2) acc) := by
  have hnone : row.cells.length < 5 → parse_prop_row row sp dr ts = none := by
    intro h
    rcases row with ⟨cells⟩
    simp only at h
    unfold parse_prop_row
    cases cells with
    | nil => rfl
    | cons c0 t0 =>
      cases t0 with
      | nil => rfl
      | cons c1 t1 =>
        cases t1 with
        | nil => rfl
        | cons c2 t2 =>
          cases t2 with
          | nil => rfl
          | cons c3 t3 =>
            cases t3 with
            | nil => rfl
            | cons c4 t4 =>
              exfalso
              simp [List.length_cons] at h
              omega
  refine ⟨hnone, ?_, ?_⟩
  · intro c0 c1 c2 c3 c4 rest h
    cases hl : c4.link with
    | some a => simp [parse_prop_row, h, hl]
    | none => simp [parse_prop_row, h, hl]
  · intro rows1 rows2 acc h
    have hp := hnone h
    unfold scrapeRows
    rw [List.foldl_append, List.foldl_append, List.foldl_cons]
    simp only [hp]

/-- A concrete malformed row with a single cell, for witnesses. -/
def rowShort : Row :=
  ⟨[cellW "x"]⟩

/-- Witness for C7: the short row is rejected, the well-formed row parses
to the expected record. -/
theorem parse_prop_row_spec_witness :
    parse_prop_row rowShort "MLB" "today" "ts" = none ∧
    parse_prop_row rowW "MLB" "today" "ts" = some sampleRec := by
  constructor
  · exact (parse_prop_row_spec rowShort "MLB" "today" "ts").1 (by decide)
  · have h := (parse_prop_row_spec rowW "MLB" "today" "ts").2.1
      (cellW "LAD @ NYY") (cellW "Oct 12") (cellW "Hits") (cellW "2+")
      (cellW "-110") [] rfl
    rw [h]
    decide

/-! ## Grouping lemmas for `get_top_props_by_sport` -/

theorem lookupGroup_addToGroup (g : List (String × List PropRecord))
    (p : PropRecord) (t : String) :
    lookupGroup (addToGroup g p) t =
      if p.sport = t then lookupGroup g t ++ [p]
      else lookupGroup g t := by
  induction g with
  | nil =>
    by_cases h : p.sport = t <;> simp [addToGroup, lookupGroup, h]
  | cons e g ih =>
    obtain ⟨s, ps⟩ := e
    simp only [addToGroup]
    by_cases hsp : s = p.sport
    · rw [if_pos hsp]
      simp only [lookupGroup]
      by_cases hst : s = t
      · rw [if_pos hst, if_pos (hsp.symm.trans hst)]
        rw [if_pos hst]
      · rw [if_neg hst, if_neg (fun h => hst (hsp.trans h))]
        rw [if_neg hst]
    · rw [if_neg hsp]
      simp only [lookupGroup]
      by_cases hst : s = t
      · rw [if_pos hst, if_neg (fun h => hsp (hst.trans h.symm)), if_pos hst]
      · rw [if_neg hst, ih, if_neg hst]

theorem lookupGroup_foldl (props : List PropRecord) :
    ∀ (acc : List (String × List PropRecord)) (t : String),
      lookupGroup (props.foldl addToGroup acc) t =
        lookupGroup acc t ++
          props.filter (fun p => decide (p.sport = t)) := by
  induction props with
  | nil => simp
  | cons p props ih =>
    intro acc t
    rw [List.foldl_cons, ih, lookupGroup_addToGroup]
    by_cases h : p.sport = t
    · rw [if_pos h]
      simp [List.filter_cons, h]
    · rw [if_neg h]
      simp [List.filter_cons, h]

theorem keys_addToGroup (g : List (String × List PropRecord))
    (p : PropRecord) :
    (p.sport ∈ g.map Prod.fst →
      (addToGroup g p).map Prod.fst = g.map Prod.fst) ∧
    (p.sport ∉ g.map Prod.fst →
      (addToGroup g p).map Prod.fst = g.map Prod.fst ++ [p.sport]) := by
  induction g with
  | nil => simp [addToGroup]
  | cons e g ih =>
    obtain ⟨s, ps⟩ := e
    simp only [addToGroup]
    by_cases hsp : s = p.sport
    · rw [if_pos hsp]
      constructor
      · intro _
        simp
      · intro hmem
        exfalso
        exact hmem (by simp [hsp])
    · rw [if_neg hsp]
      constructor
      · intro hmem
        rw [List.map_cons] at hmem
        rcases List.mem_cons.mp hmem with he | hmem2
        · exact absurd he.symm hsp
        · simp [ih.1 hmem2]
      · intro hmem
        have hmem2 : p.sport ∉ g.map Prod.fst := by
          intro hx
          exact hmem (by simp [hx])
        simp [ih.2 hmem2]

theorem keys_nodup_foldl (props : List PropRecord) :
    ∀ acc : List (String × List PropRecord),
      (acc.map Prod.fst).Nodup →
      ((props.foldl addToGroup acc).map Prod.fst).Nodup := by
  induction props with
  | nil => exact fun acc h => h
  | cons p props ih =>
    intro acc h
    rw [List.foldl_cons]
    apply ih
    by_cases hmem : p.sport ∈ acc.map Prod.fst
    · rw [(keys_addToGroup acc p).1 hmem]
      exact h
    · rw [(keys_addToGroup acc p).2 hmem]
      refine List.Nodup.append h (List.nodup_singleton _) ?_
      intro a ha hb
      rw [List.mem_singleton] at hb
      subst hb
      exact hmem ha

theorem lookupGroup_of_mem (g : List (String × List PropRecord))
    (s : String) (ps : List PropRecord)
    (hnd : (g.map Prod.fst).Nodup) (hmem : (s, ps) ∈ g) :
    lookupGroup g s = ps := by
  induction g with
  | nil => exact absurd hmem (List.not_mem_nil _)
  | cons e g ih =>
    obtain ⟨s1, ps1⟩ := e
    rw [List.map_cons, List.nodup_cons] at hnd
    rcases List.mem_cons.mp hmem with he | hmem2
    · rw [Prod.mk.injEq] at he
      simp [lookupGroup, he.1, he.2]
    · simp only [lookupGroup]
      by_cases hst : s1 = s
      · exfalso
        subst hst
        exact hnd.1 (by
          rw [List.mem_map]
          exact ⟨(s1, ps), hmem2, rfl⟩)
      · rw [if_neg hst]
        exact ih hnd.2 hmem2

/-- C5: every group returned by `get_top_props_by_sport` has at most
`limit` records and is exactly the first `limit` records, in order, of
the subsequence of the input whose records carry that sport — no
re-sorting by any metric. -/
theorem get_top_props_by_sport_spec (props : List PropRecord)
    (limit : Nat) (s : String) (g : List PropRecord)
    (hmem : (s, g) ∈ get_top_props_by_sport props limit) :
    g.length ≤ limit ∧
    g = (props.filter (fun p => decide (p.sport = s))).take limit := by
  unfold get_top_props_by_sport at hmem
  rw [List.mem_map] at hmem
  obtain ⟨⟨s1, ps⟩, hin, heq⟩ := hmem
  rw [Prod.mk.injEq] at heq
  obtain ⟨hs, hg⟩ := heq
  subst hs
  have hps2 : ps = props.filter (fun p => decide (p.sport = s1)) := by
    have h1 : lookupGroup (props.foldl addToGroup []) s1 = ps :=
      lookupGroup_of_mem _ s1 ps
        (keys_nodup_foldl props [] (by simp)) hin
    have h2 := lookupGroup_foldl props [] s1
    rw [h1] at h2
    simpa using h2
  constructor
  · rw [← hg, List.length_take]
    exact Nat.min_le_left _ _
  · rw [← hg, hps2]

/-- Witness for C5 at a concrete collection: with limit 1 the MLB group
is the first MLB record only. -/
theorem get_top_props_by_sport_spec_witness :
    ([sampleRec].length ≤ 1 ∧
      [sampleRec] =
        ([sampleRec, sampleRec].filter
          (fun p => decide (p.sport = "MLB"))).take 1) :=
  get_top_props_by_sport_spec [sampleRec, sampleRec] 1 "MLB" [sampleRec]
    (by decide)

/-! ## Converted-lines theorems -/

/-- C6: `get_converted_lines` selects exactly the records whose converted
line differs from the raw line; the rate is `converted/total` as a
percentage, and an empty collection reports `0%` with no division. -/
theorem get_converted_lines_spec (props : List PropRecord) :
    (∀ p, p ∈ (get_converted_lines props).converted_props ↔
      p ∈ props ∧ p.converted_betslip_line ≠ p.betslip_line) ∧
    (get_converted_lines props).total_props = props.length ∧
    (get_converted_lines props).count =
      (get_converted_lines props).converted_props.length ∧
    (props = [] → (get_converted_lines props).conversion_rate = "0%") ∧
    (props ≠ [] → (get_converted_lines props).conversion_rate =
      fmtPct (get_converted_lines props).count props.length) := by
  refine ⟨?_, rfl, rfl, ?_, ?_⟩
  · intro p
    simp only [get_converted_lines, List.mem_filter, decide_eq_true_eq]
    exact and_congr_right (fun _ => ⟨fun h => fun he => h he.symm,
      fun h => fun he => h he.symm⟩)
  · intro h
    subst h
    rfl
  · intro h
    simp [get_converted_lines, h]

/-- Witness for C6: the empty collection reports the `0%` rate, and a
two-record collection selects only the converted record. -/
theorem get_converted_lines_spec_witness :
    (get_converted_lines []).conversion_rate = "0%" ∧
    (sampleRec ∈ (get_converted_lines [sampleRec]).converted_props ↔
      sampleRec ∈ [sampleRec] ∧
        sampleRec.converted_betslip_line ≠ sampleRec.betslip_line) :=
  ⟨(get_converted_lines_spec []).2.2.2.1 rfl,
    (get_converted_lines_spec [sampleRec]).1 sampleRec⟩

end DK
